import Mathlib

/-!
Verification of the interval-arithmetic core of the mnis library
(mnislib.py and housedata.py) against its specification.

Dates are embedded as proleptic Gregorian ordinals (Python's
`datetime.date.toordinal`: 0001-01-01 has ordinal 1), carried in `Int`.
Comparison and day-difference of `datetime.date` values coincide with
comparison and subtraction of ordinals, which is all the source uses.
Fallible functions return `Except MnisError`, one constructor per
distinct raise site reachable from the modelled code (plus the
`IndexError` produced by `startDates[0]` on an empty list in
`getServiceDataForMember`).
-/

namespace Mnis

/-- MnisError enumerates the failure points of the modelled code:
the two explicit `MembershipError` raises in `getMembershipDays`
(start after end, and the final unreachable branch), the
`MembershipError` raise in `isDateInRange`, and the `IndexError`
raised by `startDates[0]` in `getServiceDataForMember` when no
membership passed the Commons filter (the spec calls this last one
`EmptyResultError`). -/
inductive MnisError where
  | startAfterEndInGetMembershipDays
  | startLaterThanEndInIsDateInRange
  | shouldNotHappenInGetMembershipDays
  | indexError
deriving DecidableEq

/-- Conversion from a calendar date to the count of days elapsed before
month `m` in a common year, as used by the proleptic Gregorian ordinal. -/
def daysBeforeMonth (m : Nat) : Int :=
  match m with
  | 1 => 0
  | 2 => 31
  | 3 => 59
  | 4 => 90
  | 5 => 120
  | 6 => 151
  | 7 => 181
  | 8 => 212
  | 9 => 243
  | 10 => 273
  | 11 => 304
  | _ => 334

/-- Gregorian leap-year test. -/
def isLeapYear (y : Nat) : Bool :=
  (y % 4 == 0 && y % 100 != 0) || y % 400 == 0

/-- mkDate y m d is the proleptic Gregorian ordinal of the date
y-m-d, matching Python's `datetime.date(y, m, d).toordinal()`. -/
def mkDate (y m d : Nat) : Int :=
  365 * ((y : Int) - 1) + ((y : Int) - 1) / 4 - ((y : Int) - 1) / 100
    + ((y : Int) - 1) / 400 + daysBeforeMonth m
    + (if 2 < m && isLeapYear y then 1 else 0) + (d : Int)

/-- HouseDates embeds one entry of `housedata.dates`: the dissolution
date and the subsequent election date of a Parliament. -/
structure HouseDates where
  dissolution : Int
  election : Int
deriving DecidableEq

/-- housedataDates embeds the `dates` dictionary of housedata.py as an
association list in its insertion order, keyed by the same labels. -/
def housedataDates : List (String × HouseDates) :=
  [ ("1929", ⟨mkDate 1929 5 10, mkDate 1929 5 30⟩)
  , ("1931", ⟨mkDate 1931 10 8, mkDate 1931 10 27⟩)
  , ("1935", ⟨mkDate 1935 10 25, mkDate 1935 11 14⟩)
  , ("1945", ⟨mkDate 1945 6 15, mkDate 1945 7 5⟩)
  , ("1950", ⟨mkDate 1950 2 3, mkDate 1950 2 23⟩)
  , ("1951", ⟨mkDate 1951 10 5, mkDate 1951 10 25⟩)
  , ("1955", ⟨mkDate 1955 5 6, mkDate 1955 5 26⟩)
  , ("1959", ⟨mkDate 1959 9 18, mkDate 1959 10 8⟩)
  , ("1964", ⟨mkDate 1964 9 25, mkDate 1964 10 15⟩)
  , ("1966", ⟨mkDate 1966 3 10, mkDate 1966 3 31⟩)
  , ("1970", ⟨mkDate 1970 5 29, mkDate 1970 6 18⟩)
  , ("1974 (Feb)", ⟨mkDate 1974 2 8, mkDate 1974 2 28⟩)
  , ("1974 (Oct)", ⟨mkDate 1974 9 20, mkDate 1974 10 10⟩)
  , ("1979", ⟨mkDate 1979 4 7, mkDate 1979 5 3⟩)
  , ("1983", ⟨mkDate 1983 5 13, mkDate 1983 6 9⟩)
  , ("1987", ⟨mkDate 1987 5 18, mkDate 1987 6 11⟩)
  , ("1992", ⟨mkDate 1992 3 16, mkDate 1992 4 9⟩)
  , ("1997", ⟨mkDate 1997 4 8, mkDate 1997 5 1⟩)
  , ("2001", ⟨mkDate 2001 5 14, mkDate 2001 6 7⟩)
  , ("2005", ⟨mkDate 2005 4 11, mkDate 2005 5 5⟩)
  , ("2010", ⟨mkDate 2010 4 12, mkDate 2010 5 6⟩)
  , ("2015", ⟨mkDate 2015 3 30, mkDate 2015 5 7⟩) ]

/-- charListLe is lexicographic order on code-point sequences, the
order Python uses to compare strings in `sorted(houseDates.keys())`. -/
def charListLe : List Char → List Char → Bool
  | [], _ => true
  | _ :: _, [] => false
  | a :: as, b :: bs =>
    if a.toNat < b.toNat then true
    else if b.toNat < a.toNat then false
    else charListLe as bs

/-- keyLe compares two keys of the blackout table as Python compares
strings: lexicographically by Unicode code point. -/
def keyLe (a b : String) : Bool := charListLe a.data b.data

/-- insertByKey inserts an entry into a key-sorted association list,
keeping keys in ascending string order. -/
def insertByKey (x : String × HouseDates) :
    List (String × HouseDates) → List (String × HouseDates)
  | [] => [x]
  | y :: rest => if keyLe x.1 y.1 then x :: y :: rest else y :: insertByKey x rest

/-- sortByKey sorts an association list by its string keys in ascending
order, embedding `sorted(houseDates.keys())` followed by dictionary
lookup in `getMembershipDays` (keys are unique in the real table). -/
def sortByKey : List (String × HouseDates) → List (String × HouseDates)
  | [] => []
  | x :: rest => insertByKey x (sortByKey rest)

/-- HouseMembership embeds one entry of `member['HouseMemberships']`:
the chamber discriminator, the start date, and the optional end date
(`none` for an open membership). -/
structure HouseMembership where
  house : String
  startDate : Int
  endDate : Option Int
deriving DecidableEq

/-- resolveEnd gives the end date used by `getMembershipDays` before
clamping: the concrete end date, or `onDate` if the membership is open. -/
def resolveEnd (membership : HouseMembership) (onDate : Int) : Int :=
  match membership.endDate with
  | none => onDate
  | some e => e

/-- clampedEnd embeds the clamping step of `getMembershipDays`: if the
resolved end date is after `onDate` it is replaced by `onDate`. -/
def clampedEnd (membership : HouseMembership) (onDate : Int) : Int :=
  if resolveEnd membership onDate > onDate then onDate
  else resolveEnd membership onDate

/-- effectiveEnd is the specification-side reading of the same value:
the concrete end, or `onDate` if the end is open, clamped to `onDate`. -/
def effectiveEnd (membership : HouseMembership) (onDate : Int) : Int :=
  min (resolveEnd membership onDate) onDate

/-- dissolutionStep embeds one iteration of the election loop in
`getMembershipDays`, with exactly the branch structure of the source:
the nested comparisons of `dissolution` and `election` against the
membership bounds, each `continue` returning the updated day count and
the final `else` raising `MembershipError`. -/
def dissolutionStep (startDate endDate : Int) (p : HouseDates)
    (serviceDays : Int) : Except MnisError Int :=
  if p.dissolution ≥ startDate then
    if p.dissolution < endDate then
      if p.election ≤ endDate then
        .ok (serviceDays - (p.election - p.dissolution))
      else
        .ok (serviceDays - (endDate - p.dissolution))
    else
      .ok serviceDays
  else if p.dissolution < startDate then
    if p.election > startDate then
      if p.election ≤ endDate then
        .ok (serviceDays - (p.election - startDate))
      else
        .ok (serviceDays - (endDate - startDate))
    else
      .ok serviceDays
  else
    .error .shouldNotHappenInGetMembershipDays

/-- dissolutionLoop folds `dissolutionStep` over the blackout periods in
traversal order, propagating any error, as the `for e in elections`
loop of `getMembershipDays` does. -/
def dissolutionLoop (startDate endDate : Int) :
    List HouseDates → Int → Except MnisError Int
  | [], serviceDays => .ok serviceDays
  | p :: rest, serviceDays =>
    match dissolutionStep startDate endDate p serviceDays with
    | .error err => .error err
    | .ok d => dissolutionLoop startDate endDate rest d

/-- getMembershipDays embeds `mnislib.getMembershipDays`: return 0 when
the membership starts on or after `onDate`; clamp the end date to
`onDate`; raise `MembershipError` when the start is after the clamped
end; otherwise start from the plain day difference and subtract
dissolution periods in sorted-key order of the table. -/
def getMembershipDays (membership : HouseMembership) (onDate : Int)
    (houseDates : List (String × HouseDates)) : Except MnisError Int :=
  if membership.startDate ≥ onDate then .ok 0
  else if membership.startDate > clampedEnd membership onDate then
    .error .startAfterEndInGetMembershipDays
  else
    dissolutionLoop membership.startDate (clampedEnd membership onDate)
      ((sortByKey houseDates).map Prod.snd)
      (clampedEnd membership onDate - membership.startDate)

/-- AttrMembership embeds one entry of `member['Constituencies']` or
`member['Parties']`: a start date, an optional end date (`none` when
the membership is open) and the attribute value under `'Name'`. -/
structure AttrMembership where
  startDate : Int
  endDate : Option Int
  name : String
deriving DecidableEq

/-- isDateInRange embeds `mnislib.isDateInRange`: it raises
`MembershipError` when `startDate > endDate` and otherwise reports
whether `startDate ≤ onDate ≤ endDate`, inclusive at both ends. -/
def isDateInRange (onDate startDate endDate : Int) : Except MnisError Bool :=
  if startDate > endDate then
    .error .startLaterThanEndInIsDateInRange
  else if onDate ≥ startDate ∧ onDate ≤ endDate then
    .ok true
  else
    .ok false

/-- attrEffectiveEnd is the end date `isDateInMembership` tests against:
the concrete end date, or the wall-clock `today` when the membership is
open. -/
def attrEffectiveEnd (membership : AttrMembership) (today : Int) : Int :=
  match membership.endDate with
  | none => today
  | some e => e

/-- isDateInMembership embeds `mnislib.isDateInMembership`, with the
ambient `datetime.date.today()` made an explicit `today` parameter. -/
def isDateInMembership (membership : AttrMembership) (onDate today : Int) :
    Except MnisError Bool :=
  isDateInRange onDate membership.startDate (attrEffectiveEnd membership today)

/-- ResolveResult is the value returned by the attribute-resolution
scan: the `'Name'` of the first matching membership, or the
`'Not serving on ...'` indicator carrying the query date. -/
inductive ResolveResult where
  | resolvedName (value : String)
  | notServing (onDate : Int)
deriving DecidableEq

/-- resolveAttribute embeds the scan shared verbatim by
`getConstituencyForMember` and `getPartyForMember`: walk the
memberships in the order supplied, return the name of the first one
containing `onDate`, fall back to the not-serving indicator, and let
any exception from `isDateInMembership` propagate. The single-object
input shape of the source corresponds to a one-element list. -/
def resolveAttribute : List AttrMembership → Int → Int →
    Except MnisError ResolveResult
  | [], onDate, _ => .ok (.notServing onDate)
  | membership :: rest, onDate, today =>
    match isDateInMembership membership onDate today with
    | .error err => .error err
    | .ok true => .ok (.resolvedName membership.name)
    | .ok false => resolveAttribute rest onDate today

/-- getConstituencyForMember embeds `mnislib.getConstituencyForMember`
applied to the normalized list of constituency memberships. -/
def getConstituencyForMember (memberships : List AttrMembership)
    (onDate today : Int) : Except MnisError ResolveResult :=
  resolveAttribute memberships onDate today

/-- getPartyForMember embeds `mnislib.getPartyForMember` applied to the
normalized list of party memberships. -/
def getPartyForMember (memberships : List AttrMembership)
    (onDate today : Int) : Except MnisError ResolveResult :=
  resolveAttribute memberships onDate today

/-- serviceLoop embeds the accumulation loop of
`getServiceDataForMember`: each membership whose `'House'` is
`'Commons'` contributes its `getMembershipDays` result to the running
total and its start date to `startDates`; errors propagate. -/
def serviceLoop (onDate : Int) (houseDates : List (String × HouseDates)) :
    List HouseMembership → Int → List Int → Except MnisError (Int × List Int)
  | [], serviceDays, startDates => .ok (serviceDays, startDates)
  | membership :: rest, serviceDays, startDates =>
    if membership.house = "Commons" then
      match getMembershipDays membership onDate houseDates with
      | .error err => .error err
      | .ok d =>
        serviceLoop onDate houseDates rest (serviceDays + d)
          (startDates ++ [membership.startDate])
    else
      serviceLoop onDate houseDates rest serviceDays startDates

/-- insertSortedInt inserts an integer into an ascending list. -/
def insertSortedInt (x : Int) : List Int → List Int
  | [] => [x]
  | y :: rest => if x ≤ y then x :: y :: rest else y :: insertSortedInt x rest

/-- sortInts embeds `startDates.sort()`: ascending order. -/
def sortInts : List Int → List Int
  | [] => []
  | x :: rest => insertSortedInt x (sortInts rest)

/-- getServiceDataForMember embeds `mnislib.getServiceDataForMember`
applied to the normalized list of house memberships: sum the Commons
days of service, sort the collected start dates, and return the first
together with the total; indexing `startDates[0]` on an empty list is
the `IndexError` case. -/
def getServiceDataForMember (memberships : List HouseMembership)
    (onDate : Int) (houseDates : List (String × HouseDates)) :
    Except MnisError (Int × Int) :=
  match serviceLoop onDate houseDates memberships 0 [] with
  | .error err => .error err
  | .ok (serviceDays, startDates) =>
    match sortInts startDates with
    | [] => .error .indexError
    | startDate :: _ => .ok (startDate, serviceDays)

/-- overlap is the canonical single-formula blackout subtraction from
the specification: the length of the intersection of the half-open
blackout `[dissolution, election)` with the membership `[s, e)`. -/
def overlap (p : HouseDates) (s e : Int) : Int :=
  max 0 (min p.election e - max p.dissolution s)

/-- overlapSum is the total of the canonical blackout subtractions over
a table, in traversal order. -/
def overlapSum (ps : List HouseDates) (s e : Int) : Int :=
  ps.foldr (fun p acc => overlap p s e + acc) 0

/-- attrMatches is the specification-side match test of the resolver:
`start ≤ onDate ≤ effectiveEnd`, inclusive at both ends. -/
def attrMatches (membership : AttrMembership) (onDate today : Int) : Bool :=
  decide (membership.startDate ≤ onDate) &&
    decide (onDate ≤ attrEffectiveEnd membership today)

/-- resolveSpec is the specification-side description of the resolver:
the value of the first matching interval, or the not-active indicator
when no interval matches. -/
def resolveSpec (memberships : List AttrMembership) (onDate today : Int) :
    ResolveResult :=
  match memberships.find? (fun m => attrMatches m onDate today) with
  | some m => .resolvedName m.name
  | none => .notServing onDate

/-- blackoutChain lo ps states that the periods of ps are well formed
(dissolution not after election), non-overlapping, and ascending, with
every dissolution at or after the lower bound lo. -/
def blackoutChain (lo : Int) : List HouseDates → Bool
  | [] => true
  | p :: rest =>
    decide (lo ≤ p.dissolution) && decide (p.dissolution ≤ p.election) &&
      blackoutChain p.election rest

/-- blackoutTableOk states that a table, in traversal order, consists of
well-formed, non-overlapping periods sorted ascending by start. -/
def blackoutTableOk : List HouseDates → Bool
  | [] => true
  | p :: rest =>
    decide (p.dissolution ≤ p.election) && blackoutChain p.election rest

/-- tableBlackouts is the sequence of blackout periods in the order the
loop of `getMembershipDays` visits them: sorted-key order. -/
def tableBlackouts (houseDates : List (String × HouseDates)) :
    List HouseDates :=
  (sortByKey houseDates).map Prod.snd

/-- strictTableInvariant checks the loaded-table invariant claimed of
`housedata.dates`: each dissolution strictly before its election,
consecutive periods non-overlapping, and dissolutions strictly
ascending. -/
def strictTableInvariant : List HouseDates → Bool
  | [] => true
  | [p] => decide (p.dissolution < p.election)
  | p :: q :: rest =>
    decide (p.dissolution < p.election) && decide (p.election ≤ q.dissolution)
      && decide (p.dissolution < q.dissolution)
      && strictTableInvariant (q :: rest)

/-- isShouldntHappen recognises the result of the final, supposedly
unreachable raise in the election loop of `getMembershipDays`. -/
def isShouldntHappen : Except MnisError Int → Bool
  | .error .shouldNotHappenInGetMembershipDays => true
  | _ => false

/-- Decidable equality for the result type of the fallible functions. -/
instance {ε α : Type} [DecidableEq ε] [DecidableEq α] : DecidableEq (Except ε α)
  | .ok a, .ok b =>
    if h : a = b then .isTrue (by rw [h]) else .isFalse (by simp [h])
  | .error a, .error b =>
    if h : a = b then .isTrue (by rw [h]) else .isFalse (by simp [h])
  | .ok _, .error _ => .isFalse (by simp)
  | .error _, .ok _ => .isFalse (by simp)

/-- Helper: a single iteration of the election loop always produces a
value; the final raise is guarded by an exhaustive trichotomy. -/
theorem dissolutionStep_ok (s e : Int) (p : HouseDates) (acc : Int) :
    ∃ r, dissolutionStep s e p acc = .ok r := by
  unfold dissolutionStep
  split_ifs <;> first | exact ⟨_, rfl⟩ | (exfalso; omega)

/-- Helper: the election loop always produces a value. -/
theorem dissolutionLoop_ok (s e : Int) (ps : List HouseDates) :
    ∀ acc : Int, ∃ r, dissolutionLoop s e ps acc = .ok r := by
  induction ps with
  | nil => intro acc; exact ⟨acc, rfl⟩
  | cons p rest ih =>
    intro acc
    obtain ⟨r, hr⟩ := dissolutionStep_ok s e p acc
    unfold dissolutionLoop
    rw [hr]
    exact ih r

/-- Helper: for a well-formed period and a non-degenerate membership
range, one iteration of the branchy loop subtracts exactly the
canonical overlap. -/
theorem dissolutionStep_eq (s e : Int) (p : HouseDates) (acc : Int)
    (hdl : p.dissolution ≤ p.election) (hse : s ≤ e) :
    dissolutionStep s e p acc = .ok (acc - overlap p s e) := by
  unfold dissolutionStep overlap
  split_ifs <;> (congr 1; omega)

/-- Helper: the sum of canonical overlaps over a cons. -/
theorem overlapSum_cons (p : HouseDates) (rest : List HouseDates)
    (s e : Int) :
    overlapSum (p :: rest) s e = overlap p s e + overlapSum rest s e := rfl

/-- Helper: over well-formed periods the whole loop computes the plain
difference minus the sum of canonical overlaps. -/
theorem dissolutionLoop_eq (s e : Int) (hse : s ≤ e) :
    ∀ (ps : List HouseDates) (acc : Int),
      (∀ p ∈ ps, p.dissolution ≤ p.election) →
      dissolutionLoop s e ps acc = .ok (acc - overlapSum ps s e) := by
  intro ps
  induction ps with
  | nil =>
    intro acc _
    show Except.ok acc = Except.ok (acc - overlapSum [] s e)
    congr 1
    show acc = acc - 0
    omega
  | cons p rest ih =>
    intro acc hps
    have hd := hps p (List.mem_cons_self p rest)
    unfold dissolutionLoop
    rw [dissolutionStep_eq s e p acc hd hse]
    show dissolutionLoop s e rest (acc - overlap p s e) =
      Except.ok (acc - overlapSum (p :: rest) s e)
    rw [ih (acc - overlap p s e) (fun q hq => hps q (List.mem_cons_of_mem p hq))]
    rw [overlapSum_cons]
    congr 1
    omega

/-- Helper: canonical overlaps are non-negative, so their sum is too. -/
theorem overlapSum_nonneg (ps : List HouseDates) (s e : Int) :
    0 ≤ overlapSum ps s e := by
  induction ps with
  | nil => exact le_refl 0
  | cons p rest ih =>
    rw [overlapSum_cons]
    have h2 : 0 ≤ overlap p s e := le_max_left 0 _
    omega

/-- Helper: over a chained table every period is well formed. -/
theorem blackoutChain_dle :
    ∀ (ps : List HouseDates) (lo : Int), blackoutChain lo ps = true →
      ∀ p ∈ ps, p.dissolution ≤ p.election := by
  intro ps
  induction ps with
  | nil => intro lo _ p hp; cases hp
  | cons q rest ih =>
    intro lo h p hp
    unfold blackoutChain at h
    simp only [Bool.and_eq_true, decide_eq_true_eq] at h
    rcases List.mem_cons.mp hp with hq | hmem
    · rw [hq]; exact h.1.2
    · exact ih q.election h.2 p hmem

/-- Helper: the overlap sum of a chained table with all dissolutions at
or above lo is bounded by the part of the membership range above lo. -/
theorem overlapSum_le_of_chain :
    ∀ (ps : List HouseDates) (lo s e : Int), blackoutChain lo ps = true →
      overlapSum ps s e ≤ max 0 (e - max s lo) := by
  intro ps
  induction ps with
  | nil =>
    intro lo s e _
    exact le_max_left 0 _
  | cons p rest ih =>
    intro lo s e hchain
    unfold blackoutChain at hchain
    simp only [Bool.and_eq_true, decide_eq_true_eq] at hchain
    obtain ⟨⟨hlo, hdl⟩, hrest⟩ := hchain
    rw [overlapSum_cons]
    have hr := ih p.election s e hrest
    have hov : overlap p s e + max 0 (e - max s p.election) ≤
        max 0 (e - max s lo) := by
      unfold overlap
      omega
    omega

/-- Helper: a table satisfying blackoutTableOk is chained from its own
first dissolution date. -/
theorem blackoutTableOk_chain :
    ∀ ps : List HouseDates, blackoutTableOk ps = true →
      ∃ lo, blackoutChain lo ps = true := by
  intro ps h
  cases ps with
  | nil => exact ⟨0, rfl⟩
  | cons p rest =>
    refine ⟨p.dissolution, ?_⟩
    unfold blackoutTableOk at h
    unfold blackoutChain
    simp only [Bool.and_eq_true, decide_eq_true_eq] at h ⊢
    exact ⟨⟨le_refl _, h.1⟩, h.2⟩

/-- Helper: a non-overlapping ascending table cannot subtract more than
the whole membership range. -/
theorem overlapSum_le_of_tableOk (ps : List HouseDates) (s e : Int)
    (h : blackoutTableOk ps = true) : overlapSum ps s e ≤ max 0 (e - s) := by
  obtain ⟨lo, hchain⟩ := blackoutTableOk_chain ps h
  have hb := overlapSum_le_of_chain ps lo s e hchain
  omega

/-- Helper: every period of a table satisfying blackoutTableOk is well
formed. -/
theorem blackoutTableOk_dle (ps : List HouseDates)
    (h : blackoutTableOk ps = true) :
    ∀ p ∈ ps, p.dissolution ≤ p.election := by
  obtain ⟨lo, hchain⟩ := blackoutTableOk_chain ps h
  exact blackoutChain_dle ps lo hchain

/-- Helper: the clamped end computed by the code equals the
specification's effective end. -/
theorem clampedEnd_eq_effectiveEnd (m : HouseMembership) (onDate : Int) :
    clampedEnd m onDate = effectiveEnd m onDate := by
  unfold clampedEnd effectiveEnd
  split_ifs with h <;> omega

/-- Helper: unfolding of the specification-side resolver on a cons. -/
theorem resolveSpec_cons (m : AttrMembership) (rest : List AttrMembership)
    (onDate today : Int) :
    resolveSpec (m :: rest) onDate today =
      if attrMatches m onDate today then .resolvedName m.name
      else resolveSpec rest onDate today := by
  unfold resolveSpec
  cases h : attrMatches m onDate today <;> simp [List.find?, h]

/-- Helper: on well-formed interval lists the scan of the code equals
the first-match specification. -/
theorem resolveAttribute_eq_spec :
    ∀ (ms : List AttrMembership) (onDate today : Int),
      (∀ m ∈ ms, m.startDate ≤ attrEffectiveEnd m today) →
      resolveAttribute ms onDate today = .ok (resolveSpec ms onDate today) := by
  intro ms
  induction ms with
  | nil => intro onDate today _; rfl
  | cons m rest ih =>
    intro onDate today hwf
    have hm := hwf m (List.mem_cons_self m rest)
    rw [resolveSpec_cons]
    unfold resolveAttribute isDateInMembership isDateInRange
    rw [if_neg (by omega)]
    by_cases h : onDate ≥ m.startDate ∧ onDate ≤ attrEffectiveEnd m today
    · rw [if_pos h]
      have hp : attrMatches m onDate today = true := by
        unfold attrMatches
        simp only [Bool.and_eq_true, decide_eq_true_eq]
        exact ⟨h.1, h.2⟩
      rw [hp, if_pos rfl]
    · rw [if_neg h]
      have hp : attrMatches m onDate today = false := by
        cases hb : attrMatches m onDate today with
        | false => rfl
        | true =>
          exfalso
          unfold attrMatches at hb
          simp only [Bool.and_eq_true, decide_eq_true_eq] at hb
          exact h ⟨hb.1, hb.2⟩
      rw [hp]
      show resolveAttribute rest onDate today = _
      rw [ih onDate today (fun q hq => hwf q (List.mem_cons_of_mem m hq))]
      simp

/-- Helper: the aggregation loop leaves its accumulators unchanged when
no membership passes the Commons filter. -/
theorem serviceLoop_no_commons (onDate : Int)
    (hd : List (String × HouseDates)) :
    ∀ (ms : List HouseMembership) (acc : Int) (ds : List Int),
      (∀ m ∈ ms, m.house ≠ "Commons") →
      serviceLoop onDate hd ms acc ds = .ok (acc, ds) := by
  intro ms
  induction ms with
  | nil => intro acc ds _; rfl
  | cons m rest ih =>
    intro acc ds h
    unfold serviceLoop
    rw [if_neg (h m (List.mem_cons_self m rest))]
    exact ih acc ds (fun q hq => h q (List.mem_cons_of_mem m hq))

/-- C10: the final else-branch of the blackout loop in
getMembershipDays (the MembershipError raised with message "Shouldn't
happen in getMembershipDays") is unreachable: for every membership,
query date, and blackout table, each dissolution date satisfies either
dissolution ≥ startDate or dissolution < startDate, so that raise
never fires. -/
theorem getMembershipDays_internal_error_unreachable
    (m : HouseMembership) (onDate : Int)
    (hd : List (String × HouseDates)) :
    isShouldntHappen (getMembershipDays m onDate hd) = false := by
  unfold getMembershipDays
  split_ifs with h1 h2
  · rfl
  · rfl
  · obtain ⟨r, hr⟩ := dissolutionLoop_ok m.startDate (clampedEnd m onDate)
      ((sortByKey hd).map Prod.snd) (clampedEnd m onDate - m.startDate)
    rw [hr]
    rfl

/-- C8: for the concrete membership with start 1987-06-11 and open end,
query date 2015-05-07, and the full historical blackout table of
housedata.dates, getMembershipDays returns exactly 10035. -/
theorem getMembershipDays_scenarioA :
    getMembershipDays ⟨"Commons", mkDate 1987 6 11, none⟩ (mkDate 2015 5 7)
      housedataDates = .ok 10035 := by decide

/-- C9: traversed in the sorted-key order used by getMembershipDays
(with the 1974 (Feb) and 1974 (Oct) keys sorting into place), the
loaded blackout table has every dissolution strictly before its
election, non-overlapping periods, and strictly ascending dissolution
dates. -/
theorem housedata_table_invariant :
    (sortByKey housedataDates).map Prod.fst =
      ["1929", "1931", "1935", "1945", "1950", "1951", "1955", "1959",
       "1964", "1966", "1970", "1974 (Feb)", "1974 (Oct)", "1979", "1983",
       "1987", "1992", "1997", "2001", "2005", "2010", "2015"] ∧
    strictTableInvariant (tableBlackouts housedataDates) = true := by decide

/-- C6: getMembershipDays fails with the start-after-end
MembershipError (the spec's DateRangeError) exactly when the start date
is strictly before the query date yet strictly after the effective end
obtained by resolving an open end to onDate and clamping a concrete end
down to onDate. -/
theorem getMembershipDays_dateRangeError_iff (m : HouseMembership)
    (onDate : Int) (hd : List (String × HouseDates)) :
    getMembershipDays m onDate hd =
        .error .startAfterEndInGetMembershipDays ↔
      m.startDate < onDate ∧ effectiveEnd m onDate < m.startDate := by
  have hce := clampedEnd_eq_effectiveEnd m onDate
  unfold getMembershipDays
  split_ifs with h1 h2
  · simp only [reduceCtorEq, false_iff]
    omega
  · simp only [Except.error.injEq, true_iff]
    omega
  · obtain ⟨r, hr⟩ := dissolutionLoop_ok m.startDate (clampedEnd m onDate)
      ((sortByKey hd).map Prod.snd) (clampedEnd m onDate - m.startDate)
    rw [hr]
    simp only [reduceCtorEq, false_iff]
    omega

/-- C5 counterexample: with the empty (hence non-overlapping, sorted)
blackout table, a membership starting after the query date returns 0,
yet 0 exceeds effectiveEnd minus start, which is negative here; the
claimed upper bound fails as stated. -/
theorem getMembershipDays_bound_counterexample :
    blackoutTableOk (tableBlackouts []) = true ∧
    getMembershipDays ⟨"Commons", 5, none⟩ 3 [] = .ok 0 ∧
    ¬ ((0 : Int) ≤ effectiveEnd ⟨"Commons", 5, none⟩ 3 - 5) := by decide

/-- C5 amended: for every membership interval, query date, and
non-overlapping ascending blackout table, whenever getMembershipDays
returns a number n, 0 ≤ n and n ≤ max 0 (effectiveEnd − start); the
un-truncated bound n ≤ effectiveEnd − start of the claim fails when
start exceeds the query date. -/
theorem getMembershipDays_bounds (m : HouseMembership) (onDate : Int)
    (hd : List (String × HouseDates)) (n : Int)
    (hwf : blackoutTableOk (tableBlackouts hd) = true)
    (hok : getMembershipDays m onDate hd = .ok n) :
    0 ≤ n ∧ n ≤ max 0 (effectiveEnd m onDate - m.startDate) := by
  have hce := clampedEnd_eq_effectiveEnd m onDate
  unfold tableBlackouts at hwf
  unfold getMembershipDays at hok
  split_ifs at hok with h1 h2
  · have hn : n = 0 := by
      have := hok
      simp only [Except.ok.injEq] at this
      omega
    constructor
    · omega
    · have := le_max_left (0 : Int) (effectiveEnd m onDate - m.startDate)
      omega
  · have hdle := blackoutTableOk_dle ((sortByKey hd).map Prod.snd) hwf
    rw [dissolutionLoop_eq m.startDate (clampedEnd m onDate) (by omega)
      ((sortByKey hd).map Prod.snd)
      (clampedEnd m onDate - m.startDate) hdle] at hok
    have hn : n = clampedEnd m onDate - m.startDate -
        overlapSum ((sortByKey hd).map Prod.snd) m.startDate
          (clampedEnd m onDate) := by
      simp only [Except.ok.injEq] at hok
      omega
    have hnn := overlapSum_nonneg ((sortByKey hd).map Prod.snd)
      m.startDate (clampedEnd m onDate)
    have hub := overlapSum_le_of_tableOk ((sortByKey hd).map Prod.snd)
      m.startDate (clampedEnd m onDate) hwf
    omega

/-- C5 witness: applying the bound at a concrete membership, query date
and table. -/
theorem getMembershipDays_bounds_witness :
    0 ≤ (8 : Int) ∧
      (8 : Int) ≤ max 0 (effectiveEnd ⟨"Commons", 0, none⟩ 10 - 0) :=
  getMembershipDays_bounds ⟨"Commons", 0, none⟩ 10 [("1929", ⟨2, 4⟩)] 8
    (by decide) (by decide)

/-- C4: for a well-formed blackout period (dissolution not after
election) and a membership range with start < end, the branching logic
subtracts per blackout exactly the canonical
max 0 (min blackout.end e − max blackout.start s): the whole loop
computes the plain difference minus the sum of canonical overlaps,
with the degenerate blackout.start = start case excluded as the claim
states. -/
theorem dissolutionLoop_canonical (s e : Int) (ps : List HouseDates)
    (acc : Int) (hse : s < e)
    (hps : ∀ p ∈ ps, p.dissolution ≤ p.election ∧ p.dissolution ≠ s) :
    dissolutionLoop s e ps acc = .ok (acc - overlapSum ps s e) :=
  dissolutionLoop_eq s e (le_of_lt hse) ps acc (fun p hp => (hps p hp).1)

/-- C4 witness: the branchy loop and the canonical sum agree on a
concrete blackout inside a concrete membership range. -/
theorem dissolutionLoop_canonical_witness :
    dissolutionLoop 0 10 [⟨2, 4⟩] 10 = .ok (10 - overlapSum [⟨2, 4⟩] 0 10) :=
  dissolutionLoop_canonical 0 10 [⟨2, 4⟩] 10 (by decide) (by decide)

/-- C1 counterexample: a membership whose start (0) equals the
dissolution date of a blackout in the table, queried at onDate 10,
does not fail: getMembershipDays returns the numeric result 6,
subtracting the coinciding blackout like any other. -/
theorem getMembershipDays_startEqDissolution_counterexample :
    getMembershipDays ⟨"Commons", 0, none⟩ 10 [("1929", ⟨0, 4⟩)] =
      .ok 6 := by decide

/-- C1 amended: when a membership's start equals the dissolution date
of some blackout in the table and start < onDate, getMembershipDays
does not fail with any internal-consistency error: provided start is
not after the effective end (always true for an open end), it returns
a numeric result, handling the coinciding blackout in the
dissolution ≥ start branch. -/
theorem getMembershipDays_startEqDissolution_ok (m : HouseMembership)
    (onDate : Int) (hd : List (String × HouseDates))
    (h1 : m.startDate < onDate)
    (h2 : m.startDate ≤ effectiveEnd m onDate)
    (_h3 : (hd.any fun kv => kv.2.dissolution == m.startDate) = true) :
    ∃ n, getMembershipDays m onDate hd = .ok n := by
  have hce := clampedEnd_eq_effectiveEnd m onDate
  unfold getMembershipDays
  rw [if_neg (by omega), if_neg (by omega)]
  exact dissolutionLoop_ok m.startDate (clampedEnd m onDate)
    ((sortByKey hd).map Prod.snd) (clampedEnd m onDate - m.startDate)

/-- C1 witness: a concrete membership starting exactly at a blackout
dissolution date still yields a numeric day count. -/
theorem getMembershipDays_startEqDissolution_ok_witness :
    ∃ n, getMembershipDays ⟨"Commons", 0, none⟩ 10 [("1929", ⟨0, 9⟩)] =
      .ok n :=
  getMembershipDays_startEqDissolution_ok ⟨"Commons", 0, none⟩ 10
    [("1929", ⟨0, 9⟩)] (by decide) (by decide) (by decide)

/-- C2 counterexample: a malformed interval whose start (5) exceeds its
concrete end (3) is not silently non-matching: the resolver raises the
MembershipError of isDateInRange instead of returning a value or the
not-active indicator. -/
theorem resolveAttribute_malformed_counterexample :
    resolveAttribute [⟨5, some 3, "X"⟩] 4 100 =
      .error .startLaterThanEndInIsDateInRange := by decide

/-- C2 amended: attribute resolution never raises only on well-formed
data: if every interval's start is at most its effective end, resolve
returns a value or the not-active indicator for every query date; a
malformed interval (start > effectiveEnd) scanned before a match
raises a MembershipError rather than being silently non-matching. -/
theorem resolveAttribute_total (ms : List AttrMembership)
    (onDate today : Int)
    (hwf : ∀ m ∈ ms, m.startDate ≤ attrEffectiveEnd m today) :
    ∃ r, resolveAttribute ms onDate today = .ok r :=
  ⟨resolveSpec ms onDate today, resolveAttribute_eq_spec ms onDate today hwf⟩

/-- C2 witness: a well-formed singleton list resolves without error. -/
theorem resolveAttribute_total_witness :
    ∃ r, resolveAttribute [⟨0, some 10, "Y"⟩] 4 100 = .ok r :=
  resolveAttribute_total [⟨0, some 10, "Y"⟩] 4 100 (by decide)

/-- C7 counterexample: with a malformed first interval ahead of a
matching one, the resolver raises instead of returning the first
matching interval's value or the not-active indicator, refuting the
claim for arbitrary interval sequences. -/
theorem resolveAttribute_first_match_counterexample :
    resolveAttribute [⟨5, some 3, "X"⟩, ⟨0, some 10, "Y"⟩] 4 100 =
        .error .startLaterThanEndInIsDateInRange ∧
      attrMatches ⟨0, some 10, "Y"⟩ 4 100 = true := by decide

/-- C7 amended: on sequences whose intervals all satisfy
start ≤ effectiveEnd, the resolver scans in the order supplied with the
inclusive match test start ≤ onDate ≤ effectiveEnd (open ends resolved
to today), returns the value of the first matching interval, and
returns the not-active indicator carrying onDate iff onDate lies
outside every interval. -/
theorem resolveAttribute_first_match (ms : List AttrMembership)
    (onDate today : Int)
    (hwf : ∀ m ∈ ms, m.startDate ≤ attrEffectiveEnd m today) :
    resolveAttribute ms onDate today = .ok (resolveSpec ms onDate today) ∧
      (resolveAttribute ms onDate today = .ok (.notServing onDate) ↔
        ∀ m ∈ ms,
          ¬ (m.startDate ≤ onDate ∧ onDate ≤ attrEffectiveEnd m today)) := by
  have heq := resolveAttribute_eq_spec ms onDate today hwf
  refine ⟨heq, ?_⟩
  rw [heq]
  constructor
  · intro h
    simp only [Except.ok.injEq] at h
    intro m hm hcon
    unfold resolveSpec at h
    cases hf : List.find? (fun q => attrMatches q onDate today) ms with
    | none =>
      have hnone := List.find?_eq_none.mp hf m hm
      unfold attrMatches at hnone
      simp only [Bool.and_eq_true, decide_eq_true_eq, not_and] at hnone
      exact hnone hcon.1 hcon.2
    | some q =>
      rw [hf] at h
      cases h
  · intro h
    have hf : List.find? (fun q => attrMatches q onDate today) ms = none := by
      apply List.find?_eq_none.mpr
      intro q hq
      have hnq := h q hq
      unfold attrMatches
      simp only [Bool.and_eq_true, decide_eq_true_eq, not_and]
      intro ha hb
      exact hnq ⟨ha, hb⟩
    unfold resolveSpec
    rw [hf]

/-- C7 witness: applying the characterization to a concrete well-formed
singleton. -/
theorem resolveAttribute_first_match_witness :
    resolveAttribute [⟨0, some 10, "Y"⟩] 4 100 =
        .ok (resolveSpec [⟨0, some 10, "Y"⟩] 4 100) ∧
      (resolveAttribute [⟨0, some 10, "Y"⟩] 4 100 = .ok (.notServing 4) ↔
        ∀ m ∈ [(⟨0, some 10, "Y"⟩ : AttrMembership)],
          ¬ (m.startDate ≤ 4 ∧ (4 : Int) ≤ attrEffectiveEnd m 100)) :=
  resolveAttribute_first_match [⟨0, some 10, "Y"⟩] 4 100 (by decide)

/-- C3: when no house membership passes the Commons filter, the
aggregation fails (the IndexError of startDates[0], the spec's
EmptyResultError) instead of returning a defaulted first start date or
day count. -/
theorem getServiceDataForMember_no_commons_error
    (ms : List HouseMembership) (onDate : Int)
    (hd : List (String × HouseDates))
    (h : ∀ m ∈ ms, m.house ≠ "Commons") :
    getServiceDataForMember ms onDate hd = .error .indexError := by
  unfold getServiceDataForMember
  rw [serviceLoop_no_commons onDate hd ms 0 [] h]
  rfl

/-- C3 witness: a Lords-only membership list yields the empty-result
failure. -/
theorem getServiceDataForMember_no_commons_error_witness :
    getServiceDataForMember [⟨"Lords", 0, none⟩] 5 [] =
      .error .indexError :=
  getServiceDataForMember_no_commons_error [⟨"Lords", 0, none⟩] 5 []
    (by decide)

end Mnis
